import Mathlib

/-!
Shallow embedding of the ledger computation core of
custom_components/expenses_api/__init__.py.

Monetary values (Python Decimal quantized to 2 fraction digits) and the
split percentages (Python float) are both modelled as rationals.  The
rounding modes of the source are modelled exactly:
round-half-up (Decimal ROUND_HALF_UP, ties away from zero) for the share
quantization, and round-half-even (Decimal default, Python round) for the
final re-quantization and for the balance net.
-/

namespace ExpensesApi

/-- Rounding to the nearest integer with ties away from zero: the model of
Decimal ROUND_HALF_UP used by quantize(Decimal("0.01"), ROUND_HALF_UP). -/
def roundHalfUp (q : ℚ) : ℤ :=
  if 0 ≤ q then ⌊q + 1 / 2⌋ else -⌊-q + 1 / 2⌋

/-- Rounding to the nearest integer with ties to even: the model of the
default Decimal rounding used by the bare quantize(Decimal("0.01")) calls
and of Python round(x, 2). -/
def roundHalfEven (q : ℚ) : ℤ :=
  if q - ⌊q⌋ < 1 / 2 then ⌊q⌋
  else if 1 / 2 < q - ⌊q⌋ then ⌊q⌋ + 1
  else if ⌊q⌋ % 2 = 0 then ⌊q⌋ else ⌊q⌋ + 1

/-- The model of Decimal.quantize(Decimal("0.01"), rounding=ROUND_HALF_UP):
round to 2 fraction digits, ties away from zero. -/
def quantize2 (q : ℚ) : ℚ := (roundHalfUp (q * 100) : ℚ) / 100

/-- The model of Decimal.quantize(Decimal("0.01")) with the default
ROUND_HALF_EVEN rounding. -/
def quantize2he (q : ℚ) : ℚ := (roundHalfEven (q * 100) : ℚ) / 100

/-- A raw split state resolved to a fraction: a present state value is
divided by 100, an absent (or unparseable, which the source also maps to
None) state falls back to the given default.  Models the two
try/float(...)/100.0 blocks followed by the is-None default checks in
get_split_percentages. -/
def fracOfState (s : Option ℚ) (d : ℚ) : ℚ :=
  match s with
  | some v => v / 100
  | none => d

/-- Embedding of get_split_percentages.  Inputs are the parsed values of
input_number.split_andre and input_number.split_helena (none models an
absent or unparseable state).  Returns (andre_pct, helena_pct, total_pct).
Note that in the both-zero fallback branch the source sets the default
percentages but leaves total_pct equal to 0. -/
def get_split_percentages (andre_state helena_state : Option ℚ) : ℚ × ℚ × ℚ :=
  let default_andre : ℚ := 6 / 10
  let default_helena : ℚ := 4 / 10
  let andre_pct := fracOfState andre_state default_andre
  let helena_pct := fracOfState helena_state default_helena
  let total_pct := andre_pct + helena_pct
  if total_pct = 0 then
    (default_andre, default_helena, total_pct)
  else
    (andre_pct / total_pct, helena_pct / total_pct, 1)

/-- Embedding of compute_shares.  The source divides the float percentages
by total_pct and multiplies by the Decimal cost; a zero total_pct raises
ZeroDivisionError in Python, modelled by none. -/
def compute_shares (cost andre_pct helena_pct total_pct : ℚ) :
    Option (ℚ × ℚ) :=
  if total_pct = 0 then none
  else
    let andre_share := quantize2 (cost * (andre_pct / total_pct))
    let helena_share := quantize2 (cost * (helena_pct / total_pct))
    let diff := cost - (andre_share + helena_share)
    let andre_share := if diff ≠ 0 then andre_share + diff else andre_share
    some (andre_share, helena_share)

/-- The model of (paid_by or "").strip().lower(): strip ASCII whitespace on
both ends and lowercase every character.  Written over the character list so
that it evaluates by kernel reduction. -/
def normPayer (s : String) : String :=
  String.mk (((s.data.dropWhile Char.isWhitespace).reverse.dropWhile
      Char.isWhitespace).reverse.map Char.toLower)

/-- The failure kinds of handle_add_expense, one per raising site:
invalidAmount models the decimal.InvalidOperation raised by Decimal(str(x))
on a non-numeric cost state, zeroDivision models the ZeroDivisionError of
compute_shares when total_pct is 0, invalidPayer models the explicit
ValueError for an unknown payer, and ledgerInvariant models the explicit
RuntimeError of the defensive zero-sum check.  Every raised exception is
caught by the surrounding try, logged and notified, and the INSERT is never
executed. -/
inductive ExpErr where
  | invalidAmount
  | zeroDivision
  | invalidPayer
  | ledgerInvariant
  deriving DecidableEq

/-- Embedding of handle_add_expense, restricted to the monetary core.
Inputs: the parsed cost state (none models a state string rejected by
Decimal; an absent state defaults to 0 before parsing, hence is some 0),
the raw paid_by string, and the two raw split states.  The ok value is the
monetary part (cost, andre, helena) of the row inserted into the expenses
table; an error value means the exception was raised before the INSERT, so
no row is written.  The inner match models the if/elif/else on the
normalized payer (the else raises), followed by the bare quantize of both
signed values and the zero-sum check. -/
def handle_add_expense (costInput : Option ℚ) (paid_by : String)
    (andre_state helena_state : Option ℚ) : Except ExpErr (ℚ × ℚ × ℚ) :=
  match costInput with
  | none => .error .invalidAmount
  | some c =>
    let cost := quantize2 c
    let pcts := get_split_percentages andre_state helena_state
    match compute_shares cost pcts.1 pcts.2.1 pcts.2.2 with
    | none => .error .zeroDivision
    | some (andre_share, helena_share) =>
      let paid_by_norm := normPayer paid_by
      match (if paid_by_norm = "andre" then some (helena_share, -helena_share)
             else if paid_by_norm = "helena" then some (-andre_share, andre_share)
             else none) with
      | none => .error .invalidPayer
      | some (a0, h0) =>
        let andre_val := quantize2he a0
        let helena_val := quantize2he h0
        if andre_val + helena_val ≠ 0 then .error .ledgerInvariant
        else .ok (cost, andre_val, helena_val)

/-- The monetary part of one row of the expenses table: the signed andre
and helena columns. -/
structure LedgerRow where
  andre : ℚ
  helena : ℚ
  deriving DecidableEq

/-- The settlement narrative of update_balances, abstracting the three
formatted summary strings by their shape (the amount is the formatted
absolute net). -/
inductive Narrative where
  | helenaOwesAndre (amount : ℚ)
  | andreOwesHelena (amount : ℚ)
  | settled
  deriving DecidableEq

/-- Embedding of update_balances.  The SQL SUM over the signed columns is
modelled by summing over the list of rows; Python round(x, 2) is the
half-even quantization.  Returns (andre_total, helena_total, net, summary):
the source returns the two totals and publishes net and the summary string
as entity state.  Note the source performs no zero-sum check here: the
function is total and never raises on any row set. -/
def update_balances (rows : List LedgerRow) : ℚ × ℚ × ℚ × Narrative :=
  let andre_total := (rows.map LedgerRow.andre).sum
  let helena_total := (rows.map LedgerRow.helena).sum
  let net := quantize2he andre_total
  let summary :=
    if 0 < net then Narrative.helenaOwesAndre |net|
    else if net < 0 then Narrative.andreOwesHelena |net|
    else Narrative.settled
  (andre_total, helena_total, net, summary)

/-! Helper lemmas about the rounding helpers and the share computation. -/

lemma roundHalfEven_intCast (n : ℤ) : roundHalfEven (n : ℚ) = n := by
  unfold roundHalfEven
  rw [Int.floor_intCast]
  norm_num

/-- A value that is an exact multiple of one cent is left unchanged by the
bare half-even quantization. -/
lemma quantize2he_eq_self {q : ℚ} (n : ℤ) (h : q * 100 = (n : ℚ)) :
    quantize2he q = q := by
  unfold quantize2he
  rw [h, roundHalfEven_intCast, ← h]
  field_simp

lemma quantize2_mul_100 (q : ℚ) :
    quantize2 q * 100 = (roundHalfUp (q * 100) : ℚ) := by
  unfold quantize2
  field_simp

lemma quantize2he_quantize2 (q : ℚ) :
    quantize2he (quantize2 q) = quantize2 q :=
  quantize2he_eq_self (roundHalfUp (q * 100)) (quantize2_mul_100 q)

lemma quantize2he_neg_quantize2 (q : ℚ) :
    quantize2he (-quantize2 q) = -quantize2 q := by
  refine quantize2he_eq_self (-roundHalfUp (q * 100)) ?_
  have h := quantize2_mul_100 q
  push_cast
  linarith

lemma quantize2he_sub_quantize2 (p q : ℚ) :
    quantize2he (quantize2 p - quantize2 q) = quantize2 p - quantize2 q := by
  refine quantize2he_eq_self (roundHalfUp (p * 100) - roundHalfUp (q * 100)) ?_
  have hp := quantize2_mul_100 p
  have hq := quantize2_mul_100 q
  push_cast
  linarith

lemma quantize2he_neg_sub_quantize2 (p q : ℚ) :
    quantize2he (-(quantize2 p - quantize2 q)) = -(quantize2 p - quantize2 q) := by
  refine quantize2he_eq_self (roundHalfUp (q * 100) - roundHalfUp (p * 100)) ?_
  have hp := quantize2_mul_100 p
  have hq := quantize2_mul_100 q
  push_cast
  linarith

/-- With a nonzero total, compute_shares always returns the independently
rounded helena share and the drift-corrected andre share, which collapses
to cost minus the helena share whether or not the drift is zero. -/
lemma compute_shares_eq (cost a h t : ℚ) (ht : t ≠ 0) :
    compute_shares cost a h t =
      some (cost - quantize2 (cost * (h / t)), quantize2 (cost * (h / t))) := by
  unfold compute_shares
  rw [if_neg ht]
  by_cases hd : cost - (quantize2 (cost * (a / t)) + quantize2 (cost * (h / t))) = 0
  · simp only [hd, ne_eq, not_true_eq_false, if_false, reduceIte]
    have : cost - quantize2 (cost * (h / t)) = quantize2 (cost * (a / t)) := by
      linarith
    rw [this]
  · simp only [ne_eq, hd, not_false_eq_true, if_true, reduceIte]
    congr 1
    ext
    · ring
    · rfl

/-- Inversion: a successful compute_shares pins down the total as nonzero,
the helena share as the rounded product, and the andre share as the
remainder of the cost. -/
lemma compute_shares_inv {cost a h t sA sB : ℚ}
    (hcs : compute_shares cost a h t = some (sA, sB)) :
    t ≠ 0 ∧ sB = quantize2 (cost * (h / t)) ∧ sA = cost - sB := by
  by_cases ht : t = 0
  · rw [ht] at hcs
    simp [compute_shares] at hcs
  · rw [compute_shares_eq cost a h t ht] at hcs
    simp only [Option.some.injEq, Prod.mk.injEq] at hcs
    exact ⟨ht, hcs.2.symm, by rw [← hcs.1, hcs.2]⟩

/-- With computed shares and a payer normalizing to neither known party,
the payer dispatch resolves to none and handle_add_expense raises the
invalid payer error before the INSERT. -/
lemma handle_add_expense_unknown_payer (c : ℚ) (aS hS : Option ℚ)
    (p : String) {sA sB : ℚ}
    (hcs : compute_shares (quantize2 c) (get_split_percentages aS hS).1
      (get_split_percentages aS hS).2.1 (get_split_percentages aS hS).2.2 =
      some (sA, sB))
    (hpa : normPayer p ≠ "andre") (hph : normPayer p ≠ "helena") :
    handle_add_expense (some c) p aS hS = .error .invalidPayer := by
  simp only [handle_add_expense, hcs]
  rw [if_neg hpa, if_neg hph]

/-- Behavior of handle_add_expense once the shares are computed: the payer
branch fixes the two signed values, the bare quantize leaves them
unchanged, the zero-sum check passes, and the monetary row is written. -/
lemma handle_add_expense_ok (c : ℚ) (aS hS : Option ℚ) (p : String)
    {sA sB : ℚ}
    (hcs : compute_shares (quantize2 c) (get_split_percentages aS hS).1
      (get_split_percentages aS hS).2.1 (get_split_percentages aS hS).2.2 =
      some (sA, sB)) :
    (normPayer p = "andre" →
      handle_add_expense (some c) p aS hS = .ok (quantize2 c, sB, -sB)) ∧
    (normPayer p = "helena" →
      handle_add_expense (some c) p aS hS = .ok (quantize2 c, -sA, sA)) := by
  obtain ⟨ht, hB, hA⟩ := compute_shares_inv hcs
  constructor
  · intro hp
    simp only [handle_add_expense, hcs, hp, if_pos, reduceIte]
    rw [hB, quantize2he_quantize2, quantize2he_neg_quantize2]
    rw [if_neg (by simp)]
  · intro hp
    have hne : ¬ ("helena" = "andre") := by decide
    simp only [handle_add_expense, hcs, hp, hne, if_false, if_pos, reduceIte]
    rw [hA, hB, quantize2he_sub_quantize2, quantize2he_neg_sub_quantize2]
    rw [if_neg (by simp)]

/-! Concrete evaluations used by witnesses. -/

lemma gsp_default : get_split_percentages none none = (3 / 5, 2 / 5, 1) := by
  norm_num [get_split_percentages, fracOfState]

lemma cs_default_10 :
    compute_shares (quantize2 10) (get_split_percentages none none).1
      (get_split_percentages none none).2.1
      (get_split_percentages none none).2.2 = some (6, 4) := by
  rw [gsp_default]
  norm_num [compute_shares, quantize2, roundHalfUp]

/-! The claims. -/

/-- C1: for every cost, every successfully resolved split and a payer that
normalizes to andre, the inserted amounts are amountA = +shareB_final and
amountB = -shareB_final; for a payer normalizing to helena they are
amountA = -shareA_final and amountB = +shareA_final; in both cases the two
amounts add to exactly zero. -/
theorem c1_post_expense_sign_convention (c : ℚ) (aS hS : Option ℚ)
    (p : String) (sA sB : ℚ)
    (hcs : compute_shares (quantize2 c) (get_split_percentages aS hS).1
      (get_split_percentages aS hS).2.1 (get_split_percentages aS hS).2.2 =
      some (sA, sB)) :
    (normPayer p = "andre" →
      handle_add_expense (some c) p aS hS = .ok (quantize2 c, sB, -sB) ∧
        sB + -sB = 0) ∧
    (normPayer p = "helena" →
      handle_add_expense (some c) p aS hS = .ok (quantize2 c, -sA, sA) ∧
        -sA + sA = 0) := by
  obtain ⟨h1, h2⟩ := handle_add_expense_ok c aS hS p hcs
  exact ⟨fun hp => ⟨h1 hp, by ring⟩, fun hp => ⟨h2 hp, by ring⟩⟩

/-- Witness for C1 at cost 10, default 60/40 split, payer Andre. -/
theorem c1_witness :
    handle_add_expense (some 10) "Andre" none none =
      .ok (quantize2 10, 4, -4) ∧ (4 : ℚ) + -4 = 0 :=
  (c1_post_expense_sign_convention 10 none none "Andre" 6 4 cs_default_10).1
    (by decide)

/-- C2: with a nonzero total, compute_shares rounds the helena share of the
cost independently with round-half-up, adds the whole rounding drift
diff = cost - (rawShareA + rawShareB) to the andre share only, and the two
final shares add back to the cost exactly. -/
theorem c2_compute_shares_reconciliation (cost a h t : ℚ) (ht : t ≠ 0) :
    compute_shares cost a h t =
      some (quantize2 (cost * (a / t)) +
          (cost - (quantize2 (cost * (a / t)) + quantize2 (cost * (h / t)))),
        quantize2 (cost * (h / t))) ∧
    (quantize2 (cost * (a / t)) +
        (cost - (quantize2 (cost * (a / t)) + quantize2 (cost * (h / t))))) +
      quantize2 (cost * (h / t)) = cost := by
  constructor
  · rw [compute_shares_eq cost a h t ht]
    have hr : quantize2 (cost * (a / t)) +
        (cost - (quantize2 (cost * (a / t)) + quantize2 (cost * (h / t)))) =
        cost - quantize2 (cost * (h / t)) := by ring
    rw [hr]
  · ring

/-- Witness for C2 at cost 10 and the 60/40 split. -/
theorem c2_witness :
    compute_shares 10 (3 / 5) (2 / 5) 1 =
      some (quantize2 (10 * (3 / 5 / 1)) +
          (10 - (quantize2 (10 * (3 / 5 / 1)) + quantize2 (10 * (2 / 5 / 1)))),
        quantize2 (10 * (2 / 5 / 1))) ∧
    (quantize2 (10 * (3 / 5 / 1)) +
        (10 - (quantize2 (10 * (3 / 5 / 1)) + quantize2 (10 * (2 / 5 / 1))))) +
      quantize2 (10 * (2 / 5 / 1)) = 10 :=
  c2_compute_shares_reconciliation 10 (3 / 5) (2 / 5) 1 (by norm_num)

/-- C3: at the failing input rawA = 0, rawB = 0 the both-zero fallback of
get_split_percentages substitutes the default percentages but returns
total_pct = 0, so compute_shares divides by zero and posting the expense
fails instead of succeeding with the 60/40 default split. -/
theorem c3_zero_split_fallback_fails :
    get_split_percentages (some 0) (some 0) = (3 / 5, 2 / 5, 0) ∧
    handle_add_expense (some 10) "Andre" (some 0) (some 0) =
      .error .zeroDivision := by
  have hg : get_split_percentages (some 0) (some 0) = (3 / 5, 2 / 5, 0) := by
    norm_num [get_split_percentages, fracOfState]
  refine ⟨hg, ?_⟩
  simp only [handle_add_expense, hg]
  simp [compute_shares]

/-- Counterexample to C4: the row set with totals (2, -1) violates the
zero-sum invariant, yet update_balances raises nothing and happily returns
the totals, the net and a settlement narrative. -/
theorem c4_cex_no_invariant_check :
    (2 : ℚ) + (-1) ≠ 0 ∧
    update_balances [⟨2, -1⟩] = (2, -1, 2, Narrative.helenaOwesAndre 2) := by
  constructor
  · norm_num
  · norm_num [update_balances, quantize2he, roundHalfEven]

/-- C4 (amended): summarize performs no zero-sum check: even on a row set
whose per-party totals do not add to zero it returns the column sums, the
half-even rounded net and the sign-determined narrative, and never fails
with a ledger invariant error. -/
theorem c4_summarize_reports_without_check (rows : List LedgerRow)
    (_hviol : (rows.map LedgerRow.andre).sum +
      (rows.map LedgerRow.helena).sum ≠ 0) :
    (update_balances rows).1 = (rows.map LedgerRow.andre).sum ∧
    (update_balances rows).2.1 = (rows.map LedgerRow.helena).sum ∧
    (update_balances rows).2.2.1 =
      quantize2he (rows.map LedgerRow.andre).sum ∧
    (0 < (update_balances rows).2.2.1 →
      (update_balances rows).2.2.2 =
        Narrative.helenaOwesAndre ((update_balances rows).2.2.1)) := by
  refine ⟨rfl, rfl, rfl, ?_⟩
  intro hpos
  simp only [update_balances] at hpos ⊢
  rw [if_pos hpos, abs_of_pos hpos]

/-- Witness for C4 (amended) at the row set with totals (2, -1). -/
theorem c4_witness :
    (update_balances [⟨2, -1⟩]).1 = ([(⟨2, -1⟩ : LedgerRow)].map
      LedgerRow.andre).sum ∧
    (update_balances [⟨2, -1⟩]).2.1 = ([(⟨2, -1⟩ : LedgerRow)].map
      LedgerRow.helena).sum ∧
    (update_balances [⟨2, -1⟩]).2.2.1 =
      quantize2he ([(⟨2, -1⟩ : LedgerRow)].map LedgerRow.andre).sum ∧
    (0 < (update_balances [⟨2, -1⟩]).2.2.1 →
      (update_balances [⟨2, -1⟩]).2.2.2 =
        Narrative.helenaOwesAndre ((update_balances [⟨2, -1⟩]).2.2.1)) :=
  c4_summarize_reports_without_check [⟨2, -1⟩] (by norm_num)

/-- Counterexample to C5: with rawA = -50 present and negative and
rawB = 100, resolution honors the negative value (fraction -1/2 normalized
against 1/2) instead of replacing it by the 0.6 default; the claim would
give shareA = 0.6 / 1.6. -/
theorem c5_cex_negative_not_defaulted :
    get_split_percentages (some (-50)) (some 100) = (-1, 2, 1) ∧
    (-1 : ℚ) ≠ (6 / 10) / (6 / 10 + 1) := by
  constructor
  · norm_num [get_split_percentages, fracOfState]
  · norm_num

/-- C5 (amended): a present, parseable split value is always divided by 100
and normalized, even when it is negative; only an absent or unparseable
input falls back to that party's default.  With a negative rawA and a
positive pre-normalization total the resolved shareA is negative, which
could never happen if the default were substituted. -/
theorem c5_negative_input_honored (a b : ℚ) (ha : a < 0)
    (hsum : a / 100 + b / 100 ≠ 0) :
    (get_split_percentages (some a) (some b)).1 =
      (a / 100) / (a / 100 + b / 100) ∧
    (get_split_percentages (some a) (some b)).2.1 =
      (b / 100) / (a / 100 + b / 100) ∧
    (0 < a / 100 + b / 100 → (get_split_percentages (some a) (some b)).1 < 0) := by
  simp only [get_split_percentages, fracOfState]
  rw [if_neg hsum]
  refine ⟨rfl, rfl, fun hpos => ?_⟩
  exact div_neg_of_neg_of_pos
    (div_neg_of_neg_of_pos ha (by norm_num)) hpos

/-- Witness for C5 (amended) at rawA = -50, rawB = 100. -/
theorem c5_witness :
    (get_split_percentages (some (-50)) (some 100)).1 =
      ((-50 : ℚ) / 100) / ((-50 : ℚ) / 100 + 100 / 100) ∧
    (get_split_percentages (some (-50)) (some 100)).2.1 =
      ((100 : ℚ) / 100) / ((-50 : ℚ) / 100 + 100 / 100) ∧
    (0 < (-50 : ℚ) / 100 + 100 / 100 →
      (get_split_percentages (some (-50)) (some 100)).1 < 0) :=
  c5_negative_input_honored (-50) 100 (by norm_num) (by norm_num)

/-- Counterexample to C6: at rawA = -100, rawB = 200 the resolved shareA is
-1, outside the unit interval required by the claim. -/
theorem c6_cex_share_outside_unit_interval :
    (get_split_percentages (some (-100)) (some 200)).1 = -1 ∧
    ¬(0 ≤ (-1 : ℚ)) := by
  constructor
  · norm_num [get_split_percentages, fracOfState]
  · norm_num

/-- C6 (amended): the resolved split always satisfies
shareA + shareB = 1 exactly (in both the normalize branch and the
both-zero fallback branch); the bound shareA, shareB within the unit
interval additionally needs both resolved fractions non-negative, which
negative raw inputs can break. -/
theorem c6_shares_sum_to_one (aS hS : Option ℚ) :
    (get_split_percentages aS hS).1 + (get_split_percentages aS hS).2.1 = 1 ∧
    (0 ≤ fracOfState aS (6 / 10) → 0 ≤ fracOfState hS (4 / 10) →
      0 ≤ (get_split_percentages aS hS).1 ∧
      (get_split_percentages aS hS).1 ≤ 1 ∧
      0 ≤ (get_split_percentages aS hS).2.1 ∧
      (get_split_percentages aS hS).2.1 ≤ 1) := by
  simp only [get_split_percentages]
  by_cases h0 : fracOfState aS (6 / 10) + fracOfState hS (4 / 10) = 0
  · rw [if_pos h0]
    refine ⟨by norm_num, fun _ _ => ?_⟩
    norm_num
  · rw [if_neg h0]
    refine ⟨by rw [div_add_div_same, div_self h0], fun hfa hfh => ?_⟩
    have hpos : 0 < fracOfState aS (6 / 10) + fracOfState hS (4 / 10) :=
      lt_of_le_of_ne (add_nonneg hfa hfh) (Ne.symm h0)
    refine ⟨div_nonneg hfa (le_of_lt hpos), ?_, div_nonneg hfh (le_of_lt hpos), ?_⟩
    · rw [div_le_one hpos]
      linarith
    · rw [div_le_one hpos]
      linarith

/-- Witness for C6 (amended) at absent raw inputs (the 60/40 defaults). -/
theorem c6_witness :
    ((get_split_percentages none none).1 +
      (get_split_percentages none none).2.1 = 1) ∧
    (0 ≤ (get_split_percentages none none).1 ∧
      (get_split_percentages none none).1 ≤ 1 ∧
      0 ≤ (get_split_percentages none none).2.1 ∧
      (get_split_percentages none none).2.1 ≤ 1) :=
  ⟨(c6_shares_sum_to_one none none).1,
    (c6_shares_sum_to_one none none).2 (by norm_num [fracOfState])
      (by norm_num [fracOfState])⟩

lemma cs_default_neg10 :
    compute_shares (quantize2 (-10)) (get_split_percentages none none).1
      (get_split_percentages none none).2.1
      (get_split_percentages none none).2.2 = some (-6, -4) := by
  rw [gsp_default]
  norm_num [compute_shares, quantize2, roundHalfUp]

/-- Counterexample to C7: at cost 10 with the default 60/40 split and
payer Andre the recorded amounts are +4 and -4, whose absolute values add
to 8, not to the cost 10. -/
theorem c7_cex_abs_sum_not_cost :
    handle_add_expense (some 10) "Andre" none none = .ok (10, 4, -4) ∧
    |(4 : ℚ)| + |(-4 : ℚ)| ≠ 10 := by
  have hq : quantize2 10 = 10 := by norm_num [quantize2, roundHalfUp]
  have h := (handle_add_expense_ok 10 none none "Andre" cs_default_10).1
    (by decide)
  rw [hq] at h
  exact ⟨h, by norm_num⟩

/-- C7 (amended): the amounts still add to zero exactly, but the sum of
their absolute values equals twice the non-payer's final share (twice
shareB_final when Andre pays, twice shareA_final when Helena pays), which
coincides with the cost only when that share is half the cost. -/
theorem c7_abs_sum_is_twice_nonpayer_share (c : ℚ) (aS hS : Option ℚ)
    (p : String) (sA sB : ℚ)
    (hcs : compute_shares (quantize2 c) (get_split_percentages aS hS).1
      (get_split_percentages aS hS).2.1 (get_split_percentages aS hS).2.2 =
      some (sA, sB)) :
    (normPayer p = "andre" →
      handle_add_expense (some c) p aS hS = .ok (quantize2 c, sB, -sB) ∧
      sB + -sB = 0 ∧ |sB| + |(-sB)| = 2 * |sB|) ∧
    (normPayer p = "helena" →
      handle_add_expense (some c) p aS hS = .ok (quantize2 c, -sA, sA) ∧
      -sA + sA = 0 ∧ |(-sA)| + |sA| = 2 * |sA|) := by
  obtain ⟨h1, h2⟩ := handle_add_expense_ok c aS hS p hcs
  refine ⟨fun hp => ⟨h1 hp, by ring, ?_⟩, fun hp => ⟨h2 hp, by ring, ?_⟩⟩
  · rw [abs_neg]
    ring
  · rw [abs_neg]
    ring

/-- Witness for C7 (amended) at cost 10, default split, payer Andre. -/
theorem c7_witness :
    handle_add_expense (some 10) "Andre" none none =
      .ok (quantize2 10, 4, -4) ∧
    (4 : ℚ) + -4 = 0 ∧ |(4 : ℚ)| + |(-4 : ℚ)| = 2 * |(4 : ℚ)| :=
  (c7_abs_sum_is_twice_nonpayer_share 10 none none "Andre" 6 4
    cs_default_10).1 (by decide)

/-- C8: when the cost parses and the split resolves, a payer whose
normalization matches neither andre nor helena makes handle_add_expense
fail with the invalid payer error, before the INSERT, so no row is
written. -/
theorem c8_unknown_payer_rejected (c : ℚ) (aS hS : Option ℚ) (p : String)
    (sA sB : ℚ)
    (hcs : compute_shares (quantize2 c) (get_split_percentages aS hS).1
      (get_split_percentages aS hS).2.1 (get_split_percentages aS hS).2.2 =
      some (sA, sB))
    (hpa : normPayer p ≠ "andre") (hph : normPayer p ≠ "helena") :
    handle_add_expense (some c) p aS hS = .error .invalidPayer :=
  handle_add_expense_unknown_payer c aS hS p hcs hpa hph

/-- Witness for C8 at the unknown payer string charlie. -/
theorem c8_witness :
    handle_add_expense (some 10) "charlie" none none =
      .error .invalidPayer :=
  c8_unknown_payer_rejected 10 none none "charlie" 6 4 cs_default_10
    (by decide) (by decide)

/-- Counterexample to C9: a negative cost of -10 is not rejected: the
expense is processed and a row is recorded with shares of the negative
cost. -/
theorem c9_cex_negative_cost_accepted :
    handle_add_expense (some (-10)) "Andre" none none = .ok (-10, -4, 4) ∧
    (-10 : ℚ) < 0 := by
  have hq : quantize2 (-10) = -10 := by norm_num [quantize2, roundHalfUp]
  have h := (handle_add_expense_ok (-10) none none "Andre"
    cs_default_neg10).1 (by decide)
  rw [hq] at h
  have h4 : -(-4 : ℚ) = 4 := by norm_num
  rw [h4] at h
  exact ⟨h, by norm_num⟩

/-- C9 (amended): a non-numeric cost state fails with the invalid amount
error before any share computation and no row is recorded; a negative cost
is not rejected: it is quantized and processed like any other cost,
producing a recorded row. -/
theorem c9_nonnumeric_rejected_negative_accepted (p : String)
    (aS hS : Option ℚ) (c sA sB : ℚ)
    (hcs : compute_shares (quantize2 c) (get_split_percentages aS hS).1
      (get_split_percentages aS hS).2.1 (get_split_percentages aS hS).2.2 =
      some (sA, sB))
    (hp : normPayer p = "andre") :
    handle_add_expense none p aS hS = .error .invalidAmount ∧
    (c < 0 →
      handle_add_expense (some c) p aS hS = .ok (quantize2 c, sB, -sB)) :=
  ⟨rfl, fun _ => (handle_add_expense_ok c aS hS p hcs).1 hp⟩

/-- Witness for C9 (amended) at the negative cost -10. -/
theorem c9_witness :
    handle_add_expense none "Andre" none none = .error .invalidAmount ∧
    ((-10 : ℚ) < 0 →
      handle_add_expense (some (-10)) "Andre" none none =
        .ok (quantize2 (-10), -4, -(-4))) :=
  c9_nonnumeric_rejected_negative_accepted "Andre" none none (-10) (-6) (-4)
    cs_default_neg10 (by decide)

/-- C10: the two signed values are exact negations of each other and are
unchanged by the final bare quantize, so the defensive zero-sum check
always passes: no input whatsoever can reach the ledger invariant error
branch of handle_add_expense. -/
theorem c10_invariant_branch_unreachable (ci : Option ℚ) (p : String)
    (aS hS : Option ℚ) :
    handle_add_expense ci p aS hS ≠ .error .ledgerInvariant := by
  match ci with
  | none => simp [handle_add_expense]
  | some c =>
    rcases h : compute_shares (quantize2 c) (get_split_percentages aS hS).1
      (get_split_percentages aS hS).2.1 (get_split_percentages aS hS).2.2
      with _ | ⟨sA, sB⟩
    · simp [handle_add_expense, h]
    · by_cases hpa : normPayer p = "andre"
      · rw [(handle_add_expense_ok c aS hS p h).1 hpa]
        simp
      · by_cases hph : normPayer p = "helena"
        · rw [(handle_add_expense_ok c aS hS p h).2 hph]
          simp
        · rw [handle_add_expense_unknown_payer c aS hS p h hpa hph]
          simp

end ExpensesApi
